import Mathlib

/-!
Verification development for the BridgeMaster LIN decoder and contract
resolver.  The definitions below are a shallow embedding of
`src/parsers/lin_parser.py` (hand-string decoder, deck reconstructor,
tag-stream segmenter) and `src/core/contract_solver.py` (auction
replayer / contract resolver).  Python dicts keyed by the four seats or
the four suits are embedded as structures with one field per key;
Python one-character strings (the elements of `list(someString)`) are
embedded as Lean `String`s of length one, so that the `'10' → 'T'`
normalisation of the source can be stated faithfully.
-/

/-- The four seats, in the fixed source order S, W, N, E. -/
inductive Seat where
  | S | W | N | E
deriving DecidableEq, Repr, Fintype

/-- The four suits, in the fixed source order S, H, D, C. -/
inductive Suit where
  | S | H | D | C
deriving DecidableEq, Repr, Fintype

/-- One seat's hand: the dict `{'S': [...], 'H': [...], 'D': [...], 'C': [...]}`
    produced by `LinParser._parse_hand_string`.  Each card is a
    one-character string. -/
structure Hand where
  S : List String
  H : List String
  D : List String
  C : List String
deriving DecidableEq, Repr

def Hand.get (h : Hand) : Suit → List String
  | Suit.S => h.S
  | Suit.H => h.H
  | Suit.D => h.D
  | Suit.C => h.C

def Hand.set (h : Hand) : Suit → List String → Hand
  | Suit.S, l => { h with S := l }
  | Suit.H, l => { h with H := l }
  | Suit.D, l => { h with D := l }
  | Suit.C, l => { h with C := l }

def emptyHand : Hand := ⟨[], [], [], []⟩

/-- The hands dict `{'S': ..., 'W': ..., ...}`; a seat that was never
    assigned is `none` (absent from the Python dict). -/
structure Hands where
  S : Option Hand
  W : Option Hand
  N : Option Hand
  E : Option Hand
deriving DecidableEq, Repr

def Hands.get (hs : Hands) : Seat → Option Hand
  | Seat.S => hs.S
  | Seat.W => hs.W
  | Seat.N => hs.N
  | Seat.E => hs.E

def Hands.set (hs : Hands) : Seat → Option Hand → Hands
  | Seat.S, h => { hs with S := h }
  | Seat.W, h => { hs with W := h }
  | Seat.N, h => { hs with N := h }
  | Seat.E, h => { hs with E := h }

def emptyHands : Hands := ⟨none, none, none, none⟩

/-- The fixed seat iteration order `['S', 'W', 'N', 'E']` of the source. -/
def seatOrder : List Seat := [Seat.S, Seat.W, Seat.N, Seat.E]

/-- The fixed suit iteration order `['S', 'H', 'D', 'C']` of the source. -/
def suitOrder : List Suit := [Suit.S, Suit.H, Suit.D, Suit.C]

/-! ## Python string primitives

Embedded on `String.data` (the character list) so that every operation
is structurally recursive.  All inputs in this domain are ASCII. -/

/-- Python `str.lower()`. -/
def pyLower (s : String) : String := ⟨s.data.map Char.toLower⟩

/-- Python `str.upper()`. -/
def pyUpper (s : String) : String := ⟨s.data.map Char.toUpper⟩

/-- Python `str.endswith(t)`. -/
def pyEndsWith (s t : String) : Bool := t.data.isSuffixOf s.data

/-- Python `str.split(sep)` for a one-character separator. -/
def splitChar (sep : Char) : List Char → List (List Char)
  | [] => [[]]
  | c :: rest =>
    let r := splitChar sep rest
    if c = sep then [] :: r
    else
      match r with
      | h :: t => (c :: h) :: t
      | [] => [[c]]

def pySplit (s : String) (sep : Char) : List String :=
  (splitChar sep s.data).map (fun l => String.mk l)

/-- Python `s[0]`; only evaluated behind a nonemptiness guard in the
    source, so the default is unreachable. -/
def pyFirstChar (s : String) : Char := s.data.headD 'A'

/-- Python `s[-1]`; the source applies it only to calls recorded as
    nonempty bids, so the default is unreachable. -/
def pyLastChar (s : String) : Char := s.data.getLastD 'A'

/-- Python `s[1:]`. -/
def pyTail (s : String) : String := ⟨s.data.drop 1⟩

/-! ## `LinParser._parse_hand_string` -/

/-- Python `str.strip()` on a list of characters: removes leading and
    trailing whitespace only. -/
def pyStrip (l : List Char) : List Char :=
  ((l.dropWhile Char.isWhitespace).reverse.dropWhile Char.isWhitespace).reverse

def isSuitMarker (c : Char) : Bool :=
  c = 'S' || c = 'H' || c = 'D' || c = 'C'

/-- `re.findall(r"([SHDC])([^SHDC]*)", hand_str)`: every suit marker opens a
    run of the following non-marker characters; characters before the first
    marker are not matched.  The scan consumes at least one character per
    step, so recursion on a fuel equal to the list length is exact (the
    fuel-exhausted clause is unreachable). -/
def suitRunsAux : Nat → List Char → List (Char × List Char)
  | 0, _ => []
  | _ + 1, [] => []
  | fuel + 1, c :: rest =>
    if isSuitMarker c then
      (c, rest.takeWhile (fun x => !isSuitMarker x)) ::
        suitRunsAux fuel (rest.dropWhile (fun x => !isSuitMarker x))
    else
      suitRunsAux fuel rest

def suitRuns (l : List Char) : List (Char × List Char) :=
  suitRunsAux l.length l

/-- `suits[suit_char] = clean_cards` for a matched run (the run's suit
    marker is one of S, H, D, C by construction). -/
def assignRun (h : Hand) (sc : Char) (cards : List String) : Hand :=
  if sc = 'S' then { h with S := cards }
  else if sc = 'H' then { h with H := cards }
  else if sc = 'D' then { h with D := cards }
  else if sc = 'C' then { h with C := cards }
  else h

/-- `LinParser._parse_hand_string`: empty input yields the four empty suit
    lists; otherwise each matched run is stripped (ends only) and assigned,
    later runs for the same suit overwriting earlier ones. -/
def parse_hand_string (hand_str : String) : Hand :=
  if hand_str = "" then emptyHand
  else
    (suitRuns hand_str.data).foldl
      (fun h r => assignRun h r.1 ((pyStrip r.2).map Char.toString))
      emptyHand

/-! ## `LinParser._fill_missing_hand` -/

/-- The rank alphabet `"AKQJT98765432"` as the thirteen one-character
    strings produced by Python's `set('AKQJT98765432')` / iteration. -/
def ranksList : List String :=
  ["A", "K", "Q", "J", "T", "9", "8", "7", "6", "5", "4", "3", "2"]

/-- `ranks.index(x)` for the rank order string. -/
def rankIdx (r : String) : Nat := ranksList.indexOf r

/-- `c = 'T' if card == '10' else card`. -/
def normCard (card : String) : String := if card = "10" then "T" else card

/-- The inner removal loop `if c in full_deck[suit]: full_deck[suit].remove(c)`
    over one seat's cards of one suit.  `List.erase` is a no-op when the
    element is absent, which matches the membership guard. -/
def removeCards (deck : List String) (cards : List String) : List String :=
  cards.foldl (fun d card => d.erase (normCard card)) deck

/-- Steps 2 and 3 of the reconstruction for one suit: start from the full
    13-card suit and remove every card held by a present seat other than
    the missing one. -/
def remainingDeck (hands : Hands) (missing : Seat) (u : Suit) : List String :=
  seatOrder.foldl
    (fun d s =>
      if s = missing then d
      else
        match hands.get s with
        | some h => removeCards d (h.get u)
        | none => d)
    ranksList

/-- `sorted(list(full_deck[suit]), key=lambda x: ranks.index(x))`: the deck
    is always a duplicate-free subset of the rank alphabet, so sorting it by
    rank index yields exactly the rank order restricted to the deck. -/
def sortRanks (deck : List String) : List String :=
  ranksList.filter (fun r => decide (r ∈ deck))

/-- Step 4: the restored hand of the missing seat, suit by suit. -/
def restoredHand (hands : Hands) (missing : Seat) : Hand :=
  { S := sortRanks (remainingDeck hands missing Suit.S)
    H := sortRanks (remainingDeck hands missing Suit.H)
    D := sortRanks (remainingDeck hands missing Suit.D)
    C := sortRanks (remainingDeck hands missing Suit.C) }

/-- Step 1: the first seat (in the order S, W, N, E) whose entry is falsy.
    A present hand is a dict with the four suit keys and hence always
    truthy in Python, so falsy means exactly: absent from the dict. -/
def firstMissingSeat (hands : Hands) : Option Seat :=
  seatOrder.find? (fun s => (hands.get s).isNone)

/-- `LinParser._fill_missing_hand`. -/
def fill_missing_hand (hands : Hands) : Hands :=
  match firstMissingSeat hands with
  | none => hands
  | some m => hands.set m (some (restoredHand hands m))

/-- Cards of one seat in one suit (`[]` when the seat is absent). -/
def suitCardsOf (hands : Hands) (s : Seat) (u : Suit) : List String :=
  ((hands.get s).map (fun h => h.get u)).getD []

/-- All cards of one suit across the four seats, in seat order. -/
def allSuitCards (hands : Hands) (u : Suit) : List String :=
  (seatOrder.map (fun s => suitCardsOf hands s u)).flatten

/-- The normalized cards that the removal scan over the given seats
    erases from the deck of suit `u` (nothing for the missing seat or an
    absent seat). -/
def removedCards (hands : Hands) (missing : Seat) (u : Suit)
    (ss : List Seat) : List String :=
  (ss.map (fun s =>
    if s = missing then [] else (suitCardsOf hands s u).map normCard)).flatten

/-- Total number of cards in the mapping, over all seats and suits. -/
def totalCards (hands : Hands) : Nat :=
  (seatOrder.map
    (fun s => (suitOrder.map (fun u => (suitCardsOf hands s u).length)).sum)).sum

/-! ## `ContractSolver.get_contract`

The Python function returns a triple whose second component is either a
string or `None` (the value of a never-filled first-bidder slot); it is
embedded as `Option String`, with `some s` for a Python string `s` and
`none` for Python `None`. -/

/-- `PLAYERS = ['S', 'W', 'N', 'E']`. -/
def PLAYERS : List String := ["S", "W", "N", "E"]

/-- `PLAYERS[i]` for an index kept in `0..3` (the running seat index is
    always reduced mod 4 by the source). -/
def playerAt (i : Fin 4) : String := PLAYERS.get ⟨i.val, i.isLt⟩

/-- Python list indexing for a possibly negative index (Python counts
    negative indices from the end).  Only indices in `-1..3` are ever
    reachable in the source. -/
def pyGet (l : List String) (i : Int) : String :=
  if i < 0 then l.getD (l.length - i.natAbs) "" else l.getD i.natAbs ""

/-- `player_map = {'S': 0, 'W': 1, 'N': 2, 'E': 3}`, with values as seat
    indices mod 4. -/
def PLAYER_MAP : List (String × Fin 4) := [("S", 0), ("W", 1), ("N", 2), ("E", 3)]

/-- `'NS' if player_name in ['N', 'S'] else 'EW'`. -/
def partnershipOf (player : String) : String :=
  if player = "N" ∨ player = "S" then "NS" else "EW"

/-- `suit_char = c[-1].upper(); if suit_char == 'T': suit_char = 'N'`,
    applied to an already-lowercased call `c`. -/
def strainOf (c : String) : String :=
  let u := (pyLastChar c).toUpper
  if u = 'T' then "N" else u.toString

/-- A call that is neither pass nor double nor redouble is treated as a
    numbered bid by the source's final `else` branch. -/
def isBidCall (call : String) : Bool :=
  let c := pyLower call
  !(c = "p" || c = "pass" || c = "d" || c = "r")

/-- The loop state of `get_contract`: the two per-partnership
    first-bidder dicts (total functions from strain, `none` = unset or
    absent key), the running seat index, the last numbered bid (already
    lowercased), its bidder's index (`-1` before any bid), and the
    pending doubling marker. -/
structure SolverState where
  fbNS : String → Option String
  fbEW : String → Option String
  currentIdx : Fin 4
  lastBid : Option String
  lastBidderIdx : Int
  doubled : String

/-- Lookup in the `first_bidder` dict (keys `'NS'` and `'EW'` only are
    ever used by the source). -/
def fbGet (st : SolverState) (p : String) : String → Option String :=
  if p = "NS" then st.fbNS else st.fbEW

/-- One iteration of the auction loop of `get_contract`. -/
def solverStep (st : SolverState) (call : String) : SolverState :=
  let c := pyLower call
  let st' :=
    if c = "p" ∨ c = "pass" then st
    else if c = "d" then { st with doubled := "X" }
    else if c = "r" then { st with doubled := "XX" }
    else
      let suit_char := strainOf c
      let player_name := playerAt st.currentIdx
      let partnership := partnershipOf player_name
      let st1 := { st with doubled := "", lastBid := some c,
                           lastBidderIdx := (st.currentIdx.val : Int) }
      if partnership = "NS" then
        if st.fbNS suit_char = none then
          { st1 with fbNS := fun x => if x = suit_char then some player_name else st.fbNS x }
        else st1
      else
        if st.fbEW suit_char = none then
          { st1 with fbEW := fun x => if x = suit_char then some player_name else st.fbEW x }
        else st1
  { st' with currentIdx := st.currentIdx + 1 }

/-- The initial loop state for a given dealer:
    `player_map.get(dealer, 0)`, no bids seen, empty doubling marker. -/
def initSolverState (dealer : String) : SolverState :=
  { fbNS := fun _ => none
    fbEW := fun _ => none
    currentIdx := ((PLAYER_MAP.lookup dealer).getD 0)
    lastBid := none
    lastBidderIdx := -1
    doubled := "" }

/-- `ContractSolver.get_contract`. -/
def get_contract (dealer : String) (auction : List String) :
    String × Option String × String :=
  if auction = [] ∨ auction = ["p", "p", "p", "p"] then ("PASS", some "", "")
  else
    let st := auction.foldl solverStep (initSolverState dealer)
    match st.lastBid with
    | none => ("PASS", some "", "")
    | some lb =>
      let final_suit := strainOf lb
      let winning_player := pyGet PLAYERS st.lastBidderIdx
      let winning_partnership := partnershipOf winning_player
      let declarer := fbGet st winning_partnership final_suit
      let cd := pyUpper lb
      let contract_display := if pyEndsWith cd "N" then cd ++ "T" else cd
      (contract_display, declarer, st.doubled)

/-! ### Specification-side descriptions of the auction walk

These definitions restate, directly from the spec's wording, which call
wins the auction and which seat first mentioned a strain; the theorems
below relate `get_contract` to them. -/

/-- The last numbered bid of the auction (lowercased, as the source
    records it) together with the seat index that made it, walking the
    calls from seat index `i`. -/
def lastBidFrom (i : Fin 4) : List String → Option (String × Fin 4)
  | [] => none
  | call :: rest =>
    (lastBidFrom (i + 1) rest) <|>
      (if isBidCall call then some (pyLower call, i) else none)

/-- The last numbered bid and its bidding seat, walking from the dealer. -/
def lastBidWithSeat (dealer : String) (auction : List String) :
    Option (String × String) :=
  (lastBidFrom (initSolverState dealer).currentIdx auction).map
    (fun ci => (ci.1, playerAt ci.2))

/-- The seat of partnership `p` that first bid strain `strain` during the
    auction, walking the calls from seat index `i`. -/
def firstMentionFrom (p strain : String) (i : Fin 4) : List String → Option String
  | [] => none
  | call :: rest =>
    if isBidCall call ∧ strainOf (pyLower call) = strain ∧
        partnershipOf (playerAt i) = p then
      some (playerAt i)
    else firstMentionFrom p strain (i + 1) rest

/-- The doubling transition alone: a numbered bid clears the marker, a
    double or redouble sets it, a pass keeps it. -/
def dblStep (d : String) (call : String) : String :=
  let c := pyLower call
  if c = "p" ∨ c = "pass" then d
  else if c = "d" then "X"
  else if c = "r" then "XX"
  else ""

/-- A double or redouble call. -/
def isDblCall (call : String) : Bool :=
  pyLower call = "d" || pyLower call = "r"

/-! ## `LinParser.parse_content` -/

/-- The players dict `{'S': name, ...}`; seats never assigned are absent. -/
structure PlayerMap where
  S : Option String
  W : Option String
  N : Option String
  E : Option String
deriving DecidableEq, Repr

def PlayerMap.set (pm : PlayerMap) : Seat → String → PlayerMap
  | Seat.S, n => { pm with S := some n }
  | Seat.W, n => { pm with W := some n }
  | Seat.N, n => { pm with N := some n }
  | Seat.E, n => { pm with E := some n }

def emptyPlayers : PlayerMap := ⟨none, none, none, none⟩

/-- The `BridgeGame` dataclass of the source: board id, player names,
    dealer, vulnerability, hands, auction and play log — and no other
    field. -/
structure BridgeGame where
  board_id : String
  player_names : PlayerMap
  dealer : String
  vulnerability : String
  hands : Hands
  auction : List String
  play_log : List String
deriving DecidableEq, Repr

/-- `DEALER_MAP = {'1': 'S', '2': 'W', '3': 'N', '4': 'E'}`. -/
def DEALER_MAP : List (String × String) :=
  [("1", "S"), ("2", "W"), ("3", "N"), ("4", "E")]

/-- `VUL_MAP = {'o': 'None', '0': 'None', 'n': 'NS', 'e': 'EW', 'b': 'All'}`. -/
def VUL_MAP : List (String × String) :=
  [("o", "None"), ("0", "None"), ("n", "NS"), ("e", "EW"), ("b", "All")]

/-- The state-machine variables of `parse_content`, plus the games
    emitted so far. -/
structure ParseState where
  boardId : String
  players : PlayerMap
  dealer : String
  vul : String
  hands : Hands
  auction : List String
  play : List String
  games : List BridgeGame
deriving Repr

def initParseState : ParseState :=
  { boardId := "Unknown", players := emptyPlayers, dealer := "S",
    vul := "None", hands := emptyHands, auction := [], play := [],
    games := [] }

/-- Python truthiness of the `current_hands` dict: empty iff no seat was
    ever assigned. -/
def Hands.dictEmpty (hs : Hands) : Bool :=
  hs.S.isNone && hs.W.isNone && hs.N.isNone && hs.E.isNone

/-- `commit_game`: if the hands dict is non-empty, repair the missing
    hand and append the completed `BridgeGame`. -/
def commitGame (st : ParseState) : ParseState :=
  if st.hands.dictEmpty then st
  else
    { st with games := st.games ++
        [{ board_id := st.boardId
           player_names := st.players
           dealer := st.dealer
           vulnerability := st.vul
           hands := fill_missing_hand st.hands
           auction := st.auction
           play_log := st.play }] }

/-- The `qx` branch: with a value token present, flush the accumulated
    board (when the hands dict is non-empty) and reset only the
    auction, play and hands; then install the new board id. -/
def qxEffect (st : ParseState) (v : String) : ParseState :=
  let st' :=
    if st.hands.dictEmpty then st
    else { commitGame st with auction := [], play := [], hands := emptyHands }
  { st' with boardId := v }

/-- The `pn` branch: `names = p_str.split(',')`, assigned to the seats
    S, W, N, E for indices below 4. -/
def pnEffect (st : ParseState) (v : String) : ParseState :=
  { st with players :=
      (((pySplit v ',').enum).foldl
        (fun pm (p : Nat × String) =>
          if p.1 < 4 then pm.set (seatOrder.getD p.1 Seat.S) p.2 else pm)
        st.players) }

/-- The hands dict built by the `md` branch: a fresh dict, assigning the
    comma-split hand strings to the seats S, W, N, E for indices below 4. -/
def buildHands (hand_strs : List String) : Hands :=
  (hand_strs.enum).foldl
    (fun hs (p : Nat × String) =>
      if p.1 < 4 then
        hs.set (seatOrder.getD p.1 Seat.S) (some (parse_hand_string p.2))
      else hs)
    emptyHands

/-- The `md` branch: only a deal string with a leading digit sets the
    dealer (via `DEALER_MAP`, default South) and replaces the hands. -/
def mdEffect (st : ParseState) (deal_str : String) : ParseState :=
  if deal_str ≠ "" ∧ (pyFirstChar deal_str).isDigit then
    { st with
        dealer := (DEALER_MAP.lookup (pyFirstChar deal_str).toString).getD "S"
        hands := buildHands (pySplit (pyTail deal_str) ',') }
  else st

/-- The `sv` branch: `VUL_MAP.get(v_code, 'None')`. -/
def svEffect (st : ParseState) (v : String) : ParseState :=
  { st with vul := (VUL_MAP.lookup v).getD "None" }

/-- The `mb` branch: a non-empty bid is appended to the auction. -/
def mbEffect (st : ParseState) (bid : String) : ParseState :=
  if bid ≠ "" then { st with auction := st.auction ++ [bid] } else st

/-- The `pc` branch: a non-empty card is appended to the play log. -/
def pcEffect (st : ParseState) (card : String) : ParseState :=
  if card ≠ "" then { st with play := st.play ++ [card] } else st

/-- The token loop of `parse_content`.  A recognized tag consumes its
    following value token when one exists (a recognized tag that is the
    last token has no effect); any other token advances by one position
    only.  At the end of the stream, a non-empty accumulator is
    committed. -/
def parseLoop (st : ParseState) : List String → List BridgeGame
  | [] => (commitGame st).games
  | tag :: rest =>
    if tag = "qx" then
      match rest with
      | [] => (commitGame st).games
      | v :: rest' => parseLoop (qxEffect st v) rest'
    else if tag = "pn" then
      match rest with
      | [] => (commitGame st).games
      | v :: rest' => parseLoop (pnEffect st v) rest'
    else if tag = "md" then
      match rest with
      | [] => (commitGame st).games
      | v :: rest' => parseLoop (mdEffect st v) rest'
    else if tag = "sv" then
      match rest with
      | [] => (commitGame st).games
      | v :: rest' => parseLoop (svEffect st v) rest'
    else if tag = "mb" then
      match rest with
      | [] => (commitGame st).games
      | v :: rest' => parseLoop (mbEffect st v) rest'
    else if tag = "pc" then
      match rest with
      | [] => (commitGame st).games
      | v :: rest' => parseLoop (pcEffect st v) rest'
    else parseLoop st rest

/-- `LinParser.parse_content`: tokenize on `'|'` and run the loop from
    the initial state. -/
def parse_content (content : String) : List BridgeGame :=
  parseLoop initParseState (pySplit content '|')

/-- The six tag tokens the loop recognizes. -/
def recognizedTags : List String := ["qx", "pn", "md", "sv", "mb", "pc"]

/-! ## Concrete fixtures used by witnesses and counterexamples -/

/-- A 13-card South hand (4=4=4=1 shape would be wrong; this is 4-3-3-3). -/
def wHandS : Hand := ⟨["A", "K", "Q", "J"], ["A", "K", "Q"], ["A", "K", "Q"], ["A", "K", "Q"]⟩

def wHandW : Hand := ⟨["T", "9", "8"], ["J", "T", "9", "8"], ["J", "T", "9"], ["J", "T", "9"]⟩

def wHandN : Hand := ⟨["7", "6", "5"], ["7", "6", "5"], ["8", "7", "6"], ["8", "7", "6", "5"]⟩

/-- Three present 13-card hands, East absent. -/
def handsC1 : Hands := ⟨some wHandS, some wHandW, some wHandN, none⟩

/-- All four seats present, East's hand present but cardless. -/
def handsC2 : Hands := ⟨some wHandS, some wHandW, some wHandN, some emptyHand⟩

def spadesOnlyHand : Hand := ⟨ranksList, [], [], []⟩

def heartsOnlyHand : Hand := ⟨[], ranksList, [], []⟩

/-- Two present 13-card hands, North and East both absent. -/
def handsC9 : Hands := ⟨some spadesOnlyHand, some heartsOnlyHand, none, none⟩

/-- A parse state whose hands dict is non-empty (used to exercise the
    board-flush branch). -/
def stC7 : ParseState := { initParseState with hands := handsC9, vul := "NS" }

/-! ## Helper lemmas -/

theorem Hands.get_set_self (hs : Hands) (s : Seat) (h : Option Hand) :
    (hs.set s h).get s = h := by
  cases s <;> rfl

theorem Hands.get_set_ne (hs : Hands) (s s' : Seat) (h : Option Hand)
    (hne : s' ≠ s) : (hs.set s h).get s' = hs.get s' := by
  cases s <;> cases s' <;> first | rfl | exact absurd rfl hne

theorem firstMissingSeat_of_unique (hands : Hands) (m : Seat)
    (h0 : hands.get m = none)
    (h1 : ∀ s, s ≠ m → (hands.get s).isSome) :
    firstMissingSeat hands = some m := by
  cases m with
  | S => simp [firstMissingSeat, seatOrder, List.find?, h0]
  | W =>
    obtain ⟨x, hx⟩ := Option.isSome_iff_exists.mp (h1 Seat.S (by decide))
    simp [firstMissingSeat, seatOrder, List.find?, h0, hx]
  | N =>
    obtain ⟨x, hx⟩ := Option.isSome_iff_exists.mp (h1 Seat.S (by decide))
    obtain ⟨y, hy⟩ := Option.isSome_iff_exists.mp (h1 Seat.W (by decide))
    simp [firstMissingSeat, seatOrder, List.find?, h0, hx, hy]
  | E =>
    obtain ⟨x, hx⟩ := Option.isSome_iff_exists.mp (h1 Seat.S (by decide))
    obtain ⟨y, hy⟩ := Option.isSome_iff_exists.mp (h1 Seat.W (by decide))
    obtain ⟨z, hz⟩ := Option.isSome_iff_exists.mp (h1 Seat.N (by decide))
    simp [firstMissingSeat, seatOrder, List.find?, h0, hx, hy, hz]

/-! ## Claim C2 -/

/-- Claim C2, counterexample: a hands mapping in which East is present
    with four empty suit lists (exactly what the hand decoder returns for
    an empty fourth hand string) is returned unchanged by
    `_fill_missing_hand` — East keeps its cardless hand instead of being
    reconstructed as the 13 absent cards, so a present seat with total
    card count 0 is not treated as missing. -/
theorem fill_empty_seat_not_reconstructed :
    fill_missing_hand handsC2 = handsC2 ∧
      (fill_missing_hand handsC2).get Seat.E = some emptyHand ∧
      totalCards (fill_missing_hand handsC2) = 39 := by
  decide

/-- Claim C2, amended: a seat counts as missing only when it is absent
    from the hands mapping; a present hand is a dict with the four suit
    keys, hence truthy in Python even when all four lists are empty, so
    whenever every seat is present `_fill_missing_hand` returns the
    mapping unchanged and reconstructs nothing. -/
theorem fill_missing_hand_all_present (hands : Hands)
    (h : ∀ s, (hands.get s).isSome) :
    fill_missing_hand hands = hands := by
  have hfm : firstMissingSeat hands = none := by
    rw [firstMissingSeat, List.find?_eq_none]
    intro s _
    simp [Option.isNone_iff_eq_none]
    exact Option.isSome_iff_ne_none.mp (h s)
  rw [fill_missing_hand, hfm]

/-- Witness for the amended C2 theorem at the concrete mapping of the
    counterexample. -/
theorem fill_missing_hand_all_present_witness :
    fill_missing_hand handsC2 = handsC2 :=
  fill_missing_hand_all_present handsC2 (by decide)

/-! ## Claim C9 -/

/-- Claim C9, counterexample: with South holding all 13 spades, West all
    13 hearts, and both North and East absent, the repaired mapping still
    totals exactly 52 cards (North absorbs the 26-card complement), so
    "the returned mapping does not contain 52 cards in total" fails. -/
theorem fill_two_missing_total_52 :
    (fill_missing_hand handsC9).get Seat.E = none ∧
      totalCards (fill_missing_hand handsC9) = 52 := by
  decide

/-- Claim C9, amended: when several seats are missing,
    `_fill_missing_hand` raises no error and assigns a reconstructed hand
    (the complement of all present hands) only to the first missing seat
    in the fixed order S, W, N, E; every other seat — in particular every
    other missing seat — keeps its original entry, so other missing
    seats remain absent (while the total can still reach 52 cards, as the
    counterexample shows). -/
theorem fill_missing_hand_first_missing_only (hands : Hands) (m m' : Seat)
    (hm : firstMissingSeat hands = some m)
    (hm' : hands.get m' = none) (hne : m' ≠ m) :
    (fill_missing_hand hands).get m = some (restoredHand hands m) ∧
      (fill_missing_hand hands).get m' = none ∧
      (∀ s, s ≠ m → (fill_missing_hand hands).get s = hands.get s) := by
  have hfill : fill_missing_hand hands = hands.set m (some (restoredHand hands m)) := by
    rw [fill_missing_hand, hm]
  refine ⟨?_, ?_, ?_⟩
  · rw [hfill, Hands.get_set_self]
  · rw [hfill, Hands.get_set_ne hands m m' _ hne, hm']
  · intro s hs
    rw [hfill, Hands.get_set_ne hands m s _ hs]

/-- Witness for the amended C9 theorem: North and East are both missing;
    North (first in order) is repaired, East stays absent. -/
theorem fill_missing_hand_first_missing_only_witness :
    (fill_missing_hand handsC9).get Seat.N = some (restoredHand handsC9 Seat.N) ∧
      (fill_missing_hand handsC9).get Seat.E = none ∧
      (∀ s, s ≠ Seat.N → (fill_missing_hand handsC9).get s = handsC9.get s) :=
  fill_missing_hand_first_missing_only handsC9 Seat.N Seat.E (by decide) rfl
    (by decide)

/-! ## Claim C10 -/

theorem head?_dropWhile_eq_some {p : Char → Bool} {l : List Char} {c : Char}
    (h : (l.dropWhile p).head? = some c) : p c = false := by
  have hm := List.head?_dropWhile_not p l
  rw [h] at hm
  exact hm

/-- The first character surviving `str.strip()` is not whitespace. -/
theorem pyStrip_head_not_ws {l : List Char} {c : Char}
    (h : (pyStrip l).head? = some c) : c.isWhitespace = false := by
  unfold pyStrip at h
  rw [List.head?_reverse] at h
  obtain ⟨t, ht⟩ := List.dropWhile_suffix
    (l := (l.dropWhile Char.isWhitespace).reverse) Char.isWhitespace
  have hrev : ((l.dropWhile Char.isWhitespace).reverse).getLast? = some c := by
    rw [← ht, List.getLast?_append, h]
    rfl
  rw [List.getLast?_reverse] at hrev
  exact head?_dropWhile_eq_some hrev

/-- The last character surviving `str.strip()` is not whitespace. -/
theorem pyStrip_getLast_not_ws {l : List Char} {c : Char}
    (h : (pyStrip l).getLast? = some c) : c.isWhitespace = false := by
  unfold pyStrip at h
  rw [List.getLast?_reverse] at h
  exact head?_dropWhile_eq_some h

/-- Each assignment of a run either leaves a suit's list unchanged or
    replaces it with the assigned cards. -/
theorem assignRun_get (h : Hand) (sc : Char) (cards : List String) (u : Suit) :
    (assignRun h sc cards).get u = h.get u ∨
      (assignRun h sc cards).get u = cards := by
  unfold assignRun
  split_ifs <;> cases u <;> first | exact Or.inl rfl | exact Or.inr rfl

/-- After folding the matched runs over a hand, each suit's list is either
    the initial one or the stripped cards of one of the runs. -/
theorem foldl_assignRun_get (runs : List (Char × List Char)) (h0 : Hand) (u : Suit) :
    (runs.foldl (fun h r => assignRun h r.1 ((pyStrip r.2).map Char.toString)) h0).get u
        = h0.get u ∨
      ∃ cs, (runs.foldl (fun h r => assignRun h r.1 ((pyStrip r.2).map Char.toString)) h0).get u
        = (pyStrip cs).map Char.toString := by
  induction runs generalizing h0 with
  | nil => exact Or.inl rfl
  | cons r rs ih =>
    rcases ih (assignRun h0 r.1 ((pyStrip r.2).map Char.toString)) with h1 | h1
    · rw [List.foldl_cons, h1]
      rcases assignRun_get h0 r.1 ((pyStrip r.2).map Char.toString) u with h2 | h2
      · exact Or.inl h2
      · exact Or.inr ⟨r.2, h2⟩
    · rw [List.foldl_cons]
      exact Or.inr h1

/-- Claim C10, counterexample: the hand string `"SA K"` yields the spade
    list `['A', ' ', 'K']` — the interior whitespace of the run is kept
    as a card entry (Python `strip()` removes end whitespace only), so
    "no suit's rank list ever contains a whitespace character" fails. -/
theorem parse_hand_string_keeps_inner_space :
    (parse_hand_string "SA K").S = ["A", " ", "K"] ∧
      " " ∈ (parse_hand_string "SA K").S := by
  decide

/-- Claim C10, amended: only the leading and trailing whitespace of a
    suit run is stripped; consequently the first and the last entry of
    every suit list produced by `_parse_hand_string` is never a
    whitespace character (interior entries may be, as the counterexample
    shows). -/
theorem parse_hand_string_run_ends_stripped (hand_str : String) (u : Suit)
    (e : String)
    (h : ((parse_hand_string hand_str).get u).head? = some e ∨
         ((parse_hand_string hand_str).get u).getLast? = some e) :
    ∀ c ∈ e.data, c.isWhitespace = false := by
  have hcases : (parse_hand_string hand_str).get u = [] ∨
      ∃ cs, (parse_hand_string hand_str).get u = (pyStrip cs).map Char.toString := by
    unfold parse_hand_string
    split
    · cases u <;> exact Or.inl rfl
    · rcases foldl_assignRun_get (suitRuns hand_str.data) emptyHand u with h1 | h1
      · refine Or.inl (h1.trans ?_)
        cases u <;> rfl
      · exact Or.inr h1
  rcases hcases with hnil | ⟨cs, hcs⟩
  · rw [hnil] at h
    rcases h with h | h <;> exact absurd h (by simp)
  · rw [hcs] at h
    intro c hc
    rcases h with h | h
    · rw [List.head?_map] at h
      obtain ⟨c0, hc0, he⟩ := Option.map_eq_some'.mp h
      rw [← he] at hc
      rw [List.mem_singleton.mp hc]
      exact pyStrip_head_not_ws hc0
    · rw [List.getLast?_map] at h
      obtain ⟨c0, hc0, he⟩ := Option.map_eq_some'.mp h
      rw [← he] at hc
      rw [List.mem_singleton.mp hc]
      exact pyStrip_getLast_not_ws hc0

/-- Witness for the amended C10 theorem at the counterexample's input:
    the head entry `"A"` of the spade list of `"SA K"` is not whitespace. -/
theorem parse_hand_string_run_ends_stripped_witness :
    ((parse_hand_string "SA K").get Suit.S).head? = some "A" ∧
      (∀ c ∈ ("A" : String).data, c.isWhitespace = false) :=
  ⟨by decide, parse_hand_string_run_ends_stripped "SA K" Suit.S "A" (Or.inl (by decide))⟩

/-! ## Claims C6, C7, C8 (segmenter) -/

/-- A token that is none of the six recognized tags advances the loop by
    one position only: the token after it is examined as a tag. -/
theorem parseLoop_not_recognized (st : ParseState) (t : String)
    (rest : List String) (h : t ∉ recognizedTags) :
    parseLoop st (t :: rest) = parseLoop st rest := by
  simp only [recognizedTags, List.mem_cons, List.mem_singleton, not_or,
    List.not_mem_nil, not_false_iff, and_true] at h
  obtain ⟨h1, h2, h3, h4, h5, h6⟩ := h
  rw [parseLoop.eq_def]
  simp [h1, h2, h3, h4, h5, h6]

/-- Claim C6, counterexample: in `"xyz|qx|B2|md|..."` the token `qx`
    directly follows the unrecognized token `xyz`; the emitted game's
    board id is `"B2"`, so `qx` was interpreted as the new-board tag —
    it was not consumed as the unknown tag's value. -/
theorem parse_content_value_after_unknown_is_tag :
    (parse_content "xyz|qx|B2|md|1S2,S3,S4").map (fun g => g.board_id)
      = ["B2"] := by
  decide

/-- Claim C6, amended: an unrecognized tag is skipped alone — only the
    tag token itself is consumed (the loop advances one position), so the
    token following an unrecognized tag is itself interpreted as a tag. -/
theorem parseLoop_unknown_tag_skipped_alone (st : ParseState) (t : String)
    (rest : List String) (h : t ∉ recognizedTags) :
    parseLoop st (t :: rest) = parseLoop st rest :=
  parseLoop_not_recognized st t rest h

/-- Witness for the amended C6 theorem at a concrete unknown tag. -/
theorem parseLoop_unknown_tag_skipped_alone_witness :
    parseLoop initParseState ["xyz", "mb"] = parseLoop initParseState ["mb"] :=
  parseLoop_unknown_tag_skipped_alone initParseState "xyz" ["mb"] (by decide)

/-- Claim C7, counterexample: in the two-board input
    `"qx|o1|sv|n|md|1S2,S3,S4|qx|o2|md|S5,S6,S7"` the second board
    supplies no vulnerability code and its deal string has no leading
    dealer digit; only ONE game is emitted (the digitless deal never sets
    any hands), so no second BridgeGame with the documented defaults
    exists.  The second conjunct (same input but with dealer digit `2`)
    shows that a second board is not decoded from a fresh accumulator
    either: it inherits vulnerability `"NS"` from the first board
    instead of the documented default `"None"`. -/
theorem parse_content_second_board_defaults_fail :
    (parse_content "qx|o1|sv|n|md|1S2,S3,S4|qx|o2|md|S5,S6,S7").length = 1 ∧
      (parse_content "qx|o1|sv|n|md|1S2,S3,S4|qx|o2|md|2S5,S6,S7").map
          (fun g => (g.board_id, g.vulnerability, g.dealer))
        = [("o1", "NS", "S"), ("o2", "NS", "W")] := by
  decide

/-- Claim C7, amended: the flush on a `qx` tag resets only the hands,
    auction and play-log accumulators (and installs the new board id);
    the dealer, vulnerability and player names persist in the
    accumulator, so a later board that does not supply them inherits the
    previous board's values rather than the documented defaults.
    Moreover an `md` value without a leading digit is consumed with no
    effect at all, so it leaves the hands empty and the board is never
    emitted. -/
theorem parseLoop_qx_flush_partial_reset :
    (∀ (st : ParseState) (v : String) (rest : List String),
        st.hands.dictEmpty = false →
        parseLoop st ("qx" :: v :: rest) =
          parseLoop { st with games := (commitGame st).games, boardId := v,
                              auction := [], play := [], hands := emptyHands } rest) ∧
    (∀ (st : ParseState) (v : String) (rest : List String),
        (v = "" ∨ (pyFirstChar v).isDigit = false) →
        parseLoop st ("md" :: v :: rest) = parseLoop st rest) := by
  constructor
  · intro st v rest h
    rw [parseLoop.eq_def]
    have hqx : qxEffect st v =
        { st with games := (commitGame st).games, boardId := v,
                  auction := [], play := [], hands := emptyHands } := by
      rw [qxEffect]
      simp [commitGame, h]
    simp [hqx]
  · intro st v rest h
    rw [parseLoop.eq_def]
    have hmd : mdEffect st v = st := by
      rw [mdEffect, if_neg]
      rcases h with h | h
      · simp [h]
      · simp [h]
    simp [hmd]

/-- Witness for the amended C7 theorem: a state with accumulated hands
    and vulnerability `"NS"` flushed by `qx`, and a digitless `md`
    value. -/
theorem parseLoop_qx_flush_partial_reset_witness :
    parseLoop stC7 ["qx", "o2"] =
        parseLoop { stC7 with games := (commitGame stC7).games, boardId := "o2",
                              auction := [], play := [], hands := emptyHands } [] ∧
      parseLoop initParseState ["md", "S5"] = parseLoop initParseState [] :=
  ⟨parseLoop_qx_flush_partial_reset.1 stC7 "o2" [] (by decide),
   parseLoop_qx_flush_partial_reset.2 initParseState "S5" [] (Or.inr (by decide))⟩

/-- Claim C8: the segmenter has no claimed-tricks branch at all — the
    `mc` token falls into the unknown-tag path and is skipped alone, so
    inserting `mc|7` into an input changes nothing about the emitted
    games, and the `BridgeGame` record of the source carries no
    claimed-tricks field (its caller `main.py` nevertheless reads
    `game.claimed_tricks`, which is the code bug). -/
theorem parse_content_mc_has_no_effect :
    parse_content "qx|o1|md|1S2,S3,S4|mc|7"
      = parse_content "qx|o1|md|1S2,S3,S4" := by
  decide

/-! ## Solver step lemmas -/

theorem solverStep_currentIdx (st : SolverState) (call : String) :
    (solverStep st call).currentIdx = st.currentIdx + 1 := rfl

theorem isBidCall_false_iff (call : String) :
    isBidCall call = false ↔
      (pyLower call = "p" ∨ pyLower call = "pass" ∨ pyLower call = "d" ∨
        pyLower call = "r") := by
  simp only [isBidCall]
  cases hp : decide (pyLower call = "p") <;>
    cases hpass : decide (pyLower call = "pass") <;>
    cases hd : decide (pyLower call = "d") <;>
    cases hr : decide (pyLower call = "r") <;>
    simp_all

/-- Pass, double and redouble never touch the last-bid tracking nor the
    first-bidder dicts. -/
theorem solverStep_not_bid (st : SolverState) (call : String)
    (h : isBidCall call = false) :
    (solverStep st call).lastBid = st.lastBid ∧
      (solverStep st call).lastBidderIdx = st.lastBidderIdx ∧
      (solverStep st call).fbNS = st.fbNS ∧
      (solverStep st call).fbEW = st.fbEW := by
  rcases (isBidCall_false_iff call).mp h with hc | hc | hc | hc <;>
    simp [solverStep, hc]

/-- A numbered bid records itself (lowercased) and its seat index. -/
theorem solverStep_bid (st : SolverState) (call : String)
    (h : isBidCall call = true) :
    (solverStep st call).lastBid = some (pyLower call) ∧
      (solverStep st call).lastBidderIdx = (st.currentIdx.val : Int) := by
  have hc : ¬(pyLower call = "p" ∨ pyLower call = "pass") ∧
      pyLower call ≠ "d" ∧ pyLower call ≠ "r" := by
    constructor
    · rintro (hx | hx) <;> simp [isBidCall, hx] at h
    constructor
    · intro hx; simp [isBidCall, hx] at h
    · intro hx; simp [isBidCall, hx] at h
  simp only [solverStep, if_neg hc.1, if_neg hc.2.1, if_neg hc.2.2]
  constructor <;> split_ifs <;> rfl

/-- The doubling marker evolves by `dblStep` alone. -/
theorem solverStep_doubled (st : SolverState) (call : String) :
    (solverStep st call).doubled = dblStep st.doubled call := by
  by_cases h1 : pyLower call = "p" ∨ pyLower call = "pass"
  · simp [solverStep, dblStep, h1]
  · by_cases h2 : pyLower call = "d"
    · simp [solverStep, dblStep, h1, h2]
    · by_cases h3 : pyLower call = "r"
      · simp [solverStep, dblStep, h1, h2, h3]
      · simp only [solverStep, dblStep, if_neg h1, if_neg h2, if_neg h3]
        split_ifs <;> rfl

theorem foldl_solverStep_doubled (l : List String) (st : SolverState) :
    (l.foldl solverStep st).doubled = l.foldl dblStep st.doubled := by
  induction l generalizing st with
  | nil => rfl
  | cons c rest ih =>
    rw [List.foldl_cons, List.foldl_cons, ih, solverStep_doubled]

theorem foldl_solverStep_lastBid_nobid (l : List String) (st : SolverState)
    (hl : ∀ c ∈ l, isBidCall c = false) :
    (l.foldl solverStep st).lastBid = st.lastBid ∧
      (l.foldl solverStep st).lastBidderIdx = st.lastBidderIdx := by
  induction l generalizing st with
  | nil => exact ⟨rfl, rfl⟩
  | cons c rest ih =>
    have hc := solverStep_not_bid st c (hl c (List.mem_cons_self c rest))
    have := ih (solverStep st c) (fun x hx => hl x (List.mem_cons_of_mem c hx))
    rw [List.foldl_cons]
    exact ⟨this.1.trans hc.1, this.2.trans hc.2.1⟩

/-! ## Claim C4 -/

/-- Claim C4: for every dealer string and every auction consisting solely
    of passes (`p` or `pass` in any letter case, including the empty
    auction), `get_contract` returns exactly `("PASS", "", "")` — no
    exception, no declarer, no doubling marker. -/
theorem get_contract_all_pass (dealer : String) (auction : List String)
    (h : ∀ call ∈ auction, pyLower call = "p" ∨ pyLower call = "pass") :
    get_contract dealer auction = ("PASS", some "", "") := by
  rw [get_contract]
  split
  · rfl
  · have hnb : ∀ c ∈ auction, isBidCall c = false := fun c hc =>
      (isBidCall_false_iff c).mpr
        (by rcases h c hc with h1 | h1
            · exact Or.inl h1
            · exact Or.inr (Or.inl h1))
    have hlb := (foldl_solverStep_lastBid_nobid auction (initSolverState dealer) hnb).1
    simp only [hlb]
    rfl

/-- Witness for C4: dealer North, auction `[P, pass, p]`. -/
theorem get_contract_all_pass_witness :
    get_contract "N" ["P", "pass", "p"] = ("PASS", some "", "") :=
  get_contract_all_pass "N" ["P", "pass", "p"] (by decide)

/-! ## Claim C5 -/

theorem bid_call_facts (call : String) (h : isBidCall call = true) :
    ¬(pyLower call = "p" ∨ pyLower call = "pass") ∧
      pyLower call ≠ "d" ∧ pyLower call ≠ "r" := by
  refine ⟨fun hx => ?_, fun hx => ?_, fun hx => ?_⟩
  · rcases hx with hx | hx <;> simp [isBidCall, hx] at h
  · simp [isBidCall, hx] at h
  · simp [isBidCall, hx] at h

theorem dblStep_bid (y call : String) (h : isBidCall call = true) :
    dblStep y call = "" := by
  obtain ⟨h1, h2, h3⟩ := bid_call_facts call h
  simp [dblStep, h1, h2, h3]

/-- The doubling fold over a bid-free tail: its result is decided by the
    last double/redouble call of the tail, if any. -/
theorem foldl_dblStep_nobid (l : List String) (x : String)
    (hl : ∀ c ∈ l, isBidCall c = false) :
    l.foldl dblStep x =
      match (l.filter isDblCall).getLast? with
      | none => x
      | some c => if pyLower c = "d" then "X" else "XX" := by
  induction l using List.reverseRecOn with
  | nil => rfl
  | append_singleton l c ih =>
    have hc : isBidCall c = false := hl c (by simp)
    have hl' : ∀ x ∈ l, isBidCall x = false := fun x hx => hl x (by simp [hx])
    rw [List.foldl_append, List.foldl_cons, List.foldl_nil,
      List.filter_append, ih hl']
    rcases (isBidCall_false_iff c).mp hc with hx | hx | hx | hx
    · -- pass: keeps the marker, filtered out
      have hdl : isDblCall c = false := by simp [isDblCall, hx]
      simp [dblStep, hx, hdl]
    · have hdl : isDblCall c = false := by simp [isDblCall, hx]
      simp [dblStep, hx, hdl]
    · -- double
      have hdl : isDblCall c = true := by simp [isDblCall, hx]
      have hp : ¬(pyLower c = "p" ∨ pyLower c = "pass") := by
        rw [hx]; decide
      simp [dblStep, hp, hx, hdl, List.getLast?_append]
    · -- redouble
      have hdl : isDblCall c = true := by simp [isDblCall, hx]
      have hp : ¬(pyLower c = "p" ∨ pyLower c = "pass") := by
        rw [hx]; decide
      have hd : pyLower c ≠ "d" := by rw [hx]; decide
      simp [dblStep, hp, hx, hd, hdl, List.getLast?_append]

/-- Claim C5: every numbered bid clears the pending doubling marker, so
    for an auction `pre ++ b :: suf` whose last numbered bid is `b` (the
    tail `suf` contains no bid), the returned doubling marker is decided
    solely by the last double/redouble call after `b`: `""` if there is
    none, `"X"` if it is a double, `"XX"` if it is a redouble. -/
theorem get_contract_doubling_reset (dealer : String) (pre : List String)
    (b : String) (suf : List String) (hb : isBidCall b = true)
    (hsuf : ∀ c ∈ suf, isBidCall c = false) :
    (get_contract dealer (pre ++ b :: suf)).2.2 =
      match (suf.filter isDblCall).getLast? with
      | none => ""
      | some c => if pyLower c = "d" then "X" else "XX" := by
  have hne : ¬(pre ++ b :: suf = [] ∨ pre ++ b :: suf = ["p", "p", "p", "p"]) := by
    rintro (h | h)
    · exact absurd h (by simp)
    · have hbmem : b ∈ pre ++ b :: suf := by simp
      rw [h] at hbmem
      simp only [List.mem_cons, List.not_mem_nil, or_false] at hbmem
      have hbp : b = "p" := by tauto
      rw [hbp] at hb
      exact absurd hb (by decide)
  have hlb : ((pre ++ b :: suf).foldl solverStep (initSolverState dealer)).lastBid
      = some (pyLower b) := by
    rw [List.foldl_append, List.foldl_cons]
    rw [(foldl_solverStep_lastBid_nobid suf _ hsuf).1, (solverStep_bid _ b hb).1]
  have hdbl : ((pre ++ b :: suf).foldl solverStep (initSolverState dealer)).doubled
      = suf.foldl dblStep "" := by
    rw [foldl_solverStep_doubled, List.foldl_append, List.foldl_cons,
      dblStep_bid _ b hb]
  rw [get_contract, if_neg hne]
  simp only [hlb]
  rw [hdbl, foldl_dblStep_nobid suf "" hsuf]

/-- Witness for C5 at the claim's example: the auction
    `[1n, d, 2c, p, p, p]` ends with the bid `2c` followed by passes
    only, so the doubling marker set by `d` is cleared and the result's
    third component is `""`. -/
theorem get_contract_doubling_reset_witness :
    (get_contract "S" ["1n", "d", "2c", "p", "p", "p"]).2.2 = "" :=
  (get_contract_doubling_reset "S" ["1n", "d"] "2c" ["p", "p", "p"]
    (by decide) (by decide)).trans (by decide)

/-! ## Claim C3 -/

theorem partnershipOf_cases (x : String) :
    partnershipOf x = "NS" ∨ partnershipOf x = "EW" := by
  unfold partnershipOf
  split_ifs <;> simp

/-- Effect of a numbered bid on one entry of the NS first-bidder dict. -/
theorem solverStep_bid_fbNS (st : SolverState) (call : String) (x : String)
    (h : isBidCall call = true) :
    (solverStep st call).fbNS x =
      if partnershipOf (playerAt st.currentIdx) = "NS" ∧
          x = strainOf (pyLower call) ∧
          st.fbNS (strainOf (pyLower call)) = none
      then some (playerAt st.currentIdx)
      else st.fbNS x := by
  obtain ⟨h1, h2, h3⟩ := bid_call_facts call h
  simp only [solverStep, if_neg h1, if_neg h2, if_neg h3]
  by_cases hpn : partnershipOf (playerAt st.currentIdx) = "NS"
  · by_cases hfb : st.fbNS (strainOf (pyLower call)) = none
    · simp only [if_pos hpn, if_pos hfb]
      by_cases hx : x = strainOf (pyLower call)
      · simp [hx, hpn, hfb]
      · simp [hx, hpn, hfb]
    · simp [hpn, hfb]
  · simp only [if_neg hpn]
    have hcond : ¬(partnershipOf (playerAt st.currentIdx) = "NS" ∧
        x = strainOf (pyLower call) ∧
        st.fbNS (strainOf (pyLower call)) = none) := fun hcon => hpn hcon.1
    rw [if_neg hcond]
    split_ifs <;> rfl

/-- Effect of a numbered bid on one entry of the EW first-bidder dict. -/
theorem solverStep_bid_fbEW (st : SolverState) (call : String) (x : String)
    (h : isBidCall call = true) :
    (solverStep st call).fbEW x =
      if ¬partnershipOf (playerAt st.currentIdx) = "NS" ∧
          x = strainOf (pyLower call) ∧
          st.fbEW (strainOf (pyLower call)) = none
      then some (playerAt st.currentIdx)
      else st.fbEW x := by
  obtain ⟨h1, h2, h3⟩ := bid_call_facts call h
  simp only [solverStep, if_neg h1, if_neg h2, if_neg h3]
  by_cases hpn : partnershipOf (playerAt st.currentIdx) = "NS"
  · simp only [if_pos hpn]
    have hcond : ¬(¬partnershipOf (playerAt st.currentIdx) = "NS" ∧
        x = strainOf (pyLower call) ∧
        st.fbEW (strainOf (pyLower call)) = none) := fun hcon => hcon.1 hpn
    rw [if_neg hcond]
    split_ifs <;> rfl
  · by_cases hfb : st.fbEW (strainOf (pyLower call)) = none
    · simp only [if_neg hpn, if_pos hfb]
      by_cases hx : x = strainOf (pyLower call)
      · simp [hx, hpn, hfb]
      · simp [hx, hpn, hfb]
    · simp [hpn, hfb]

/-- The NS first-bidder entry after the walk: the pre-existing entry if
    set, otherwise the first NS mention of the strain in the remaining
    calls. -/
theorem foldl_solverStep_fbNS (l : List String) (st : SolverState) (s : String) :
    (l.foldl solverStep st).fbNS s =
      ((st.fbNS s) <|> firstMentionFrom "NS" s st.currentIdx l) := by
  induction l generalizing st s with
  | nil => simp [firstMentionFrom]
  | cons c rest ih =>
    rw [List.foldl_cons, ih (solverStep st c), solverStep_currentIdx]
    by_cases hb : isBidCall c = true
    · rw [solverStep_bid_fbNS st c s hb]
      by_cases hpn : partnershipOf (playerAt st.currentIdx) = "NS"
      · by_cases hss : strainOf (pyLower c) = s
        · subst hss
          rw [firstMentionFrom]
          cases hfb : st.fbNS (strainOf (pyLower c)) with
          | none => simp [hpn, hfb, hb]
          | some v => simp [hpn, hfb, hb]
        · have hc1 : ¬(isBidCall c = true ∧ strainOf (pyLower c) = s ∧
              partnershipOf (playerAt st.currentIdx) = "NS") := fun hx => hss hx.2.1
          have hc2 : ¬(partnershipOf (playerAt st.currentIdx) = "NS" ∧
              s = strainOf (pyLower c) ∧
              st.fbNS (strainOf (pyLower c)) = none) := fun hx => hss hx.2.1.symm
          rw [firstMentionFrom, if_neg hc1, if_neg hc2]
      · have hc1 : ¬(isBidCall c = true ∧ strainOf (pyLower c) = s ∧
            partnershipOf (playerAt st.currentIdx) = "NS") := fun hx => hpn hx.2.2
        have hc2 : ¬(partnershipOf (playerAt st.currentIdx) = "NS" ∧
            s = strainOf (pyLower c) ∧
            st.fbNS (strainOf (pyLower c)) = none) := fun hx => hpn hx.1
        rw [firstMentionFrom, if_neg hc1, if_neg hc2]
    · have hb' : isBidCall c = false := by simpa using hb
      have hc1 : ¬(isBidCall c = true ∧ strainOf (pyLower c) = s ∧
          partnershipOf (playerAt st.currentIdx) = "NS") := by
        rintro ⟨hx, -, -⟩
        rw [hb'] at hx
        exact Bool.noConfusion hx
      rw [(solverStep_not_bid st c hb').2.2.1, firstMentionFrom, if_neg hc1]

/-- The EW first-bidder entry after the walk. -/
theorem foldl_solverStep_fbEW (l : List String) (st : SolverState) (s : String) :
    (l.foldl solverStep st).fbEW s =
      ((st.fbEW s) <|> firstMentionFrom "EW" s st.currentIdx l) := by
  induction l generalizing st s with
  | nil => simp [firstMentionFrom]
  | cons c rest ih =>
    rw [List.foldl_cons, ih (solverStep st c), solverStep_currentIdx]
    by_cases hb : isBidCall c = true
    · rw [solverStep_bid_fbEW st c s hb]
      by_cases hpn : partnershipOf (playerAt st.currentIdx) = "NS"
      · have hc1 : ¬(isBidCall c = true ∧ strainOf (pyLower c) = s ∧
            partnershipOf (playerAt st.currentIdx) = "EW") := by
          rintro ⟨-, -, hx⟩
          rw [hpn] at hx
          exact absurd hx (by decide)
        have hc2 : ¬(¬partnershipOf (playerAt st.currentIdx) = "NS" ∧
            s = strainOf (pyLower c) ∧
            st.fbEW (strainOf (pyLower c)) = none) := fun hx => hx.1 hpn
        rw [firstMentionFrom, if_neg hc1, if_neg hc2]
      · have hew : partnershipOf (playerAt st.currentIdx) = "EW" := by
          rcases partnershipOf_cases (playerAt st.currentIdx) with hx | hx
          · exact absurd hx hpn
          · exact hx
        by_cases hss : strainOf (pyLower c) = s
        · subst hss
          rw [firstMentionFrom]
          cases hfb : st.fbEW (strainOf (pyLower c)) with
          | none => simp [hpn, hew, hfb, hb]
          | some v => simp [hpn, hew, hfb, hb]
        · have hc1 : ¬(isBidCall c = true ∧ strainOf (pyLower c) = s ∧
              partnershipOf (playerAt st.currentIdx) = "EW") := fun hx => hss hx.2.1
          have hc2 : ¬(¬partnershipOf (playerAt st.currentIdx) = "NS" ∧
              s = strainOf (pyLower c) ∧
              st.fbEW (strainOf (pyLower c)) = none) := fun hx => hss hx.2.1.symm
          rw [firstMentionFrom, if_neg hc1, if_neg hc2]
    · have hb' : isBidCall c = false := by simpa using hb
      have hc1 : ¬(isBidCall c = true ∧ strainOf (pyLower c) = s ∧
          partnershipOf (playerAt st.currentIdx) = "EW") := by
        rintro ⟨hx, -, -⟩
        rw [hb'] at hx
        exact Bool.noConfusion hx
      rw [(solverStep_not_bid st c hb').2.2.2, firstMentionFrom, if_neg hc1]

/-- The last-bid tracking after the walk matches the specification-side
    `lastBidFrom`. -/
theorem foldl_solverStep_last (l : List String) (st : SolverState) :
    ((l.foldl solverStep st).lastBid, (l.foldl solverStep st).lastBidderIdx) =
      (match lastBidFrom st.currentIdx l with
        | none => (st.lastBid, st.lastBidderIdx)
        | some ci => (some ci.1, (ci.2.val : Int))) := by
  induction l generalizing st with
  | nil => rfl
  | cons c rest ih =>
    rw [List.foldl_cons, ih (solverStep st c), solverStep_currentIdx,
      lastBidFrom]
    cases hrest : lastBidFrom (st.currentIdx + 1) rest with
    | some ci => simp
    | none =>
      by_cases hb : isBidCall c = true
      · obtain ⟨hb1, hb2⟩ := solverStep_bid st c hb
        simp [hb, hb1, hb2]
      · have hb' : isBidCall c = false := by simpa using hb
        have hnb := solverStep_not_bid st c hb'
        simp [hb', hnb.1, hnb.2.1]

/-- `PLAYERS[i]` for the recorded non-negative bidder index is the seat
    of that index. -/
theorem pyGet_playerAt (i : Fin 4) : pyGet PLAYERS ((i.val : Int)) = playerAt i := by
  fin_cases i <;> rfl

/-- Claim C3: whenever the auction has a last numbered bid, the declarer
    returned by `get_contract` is the seat of the winning partnership
    (that of the seat that made the last numbered bid) that FIRST bid the
    final contract's strain during the auction — not necessarily the
    seat that made the final bid. -/
theorem get_contract_declarer_first_mention (dealer : String)
    (auction : List String) (b s0 : String)
    (h : lastBidWithSeat dealer auction = some (b, s0)) :
    (get_contract dealer auction).2.1 =
      firstMentionFrom (partnershipOf s0) (strainOf b)
        (initSolverState dealer).currentIdx auction := by
  obtain ⟨ci, hci, hmap⟩ := Option.map_eq_some'.mp h
  obtain ⟨hb, hs0⟩ : ci.1 = b ∧ playerAt ci.2 = s0 := by
    have := Prod.mk.injEq (ci.1) (playerAt ci.2) b s0 ▸ hmap
    exact ⟨(Prod.mk.injEq _ _ _ _ ▸ hmap).1, (Prod.mk.injEq _ _ _ _ ▸ hmap).2⟩
  have hne : ¬(auction = [] ∨ auction = ["p", "p", "p", "p"]) := by
    rintro (hx | hx)
    · rw [hx] at hci
      exact Option.noConfusion hci
    · rw [hx] at hci
      have : lastBidFrom (initSolverState dealer).currentIdx
          ["p", "p", "p", "p"] = none := rfl
      rw [this] at hci
      exact Option.noConfusion hci
  have hlast := foldl_solverStep_last auction (initSolverState dealer)
  rw [hci] at hlast
  have hlb : (auction.foldl solverStep (initSolverState dealer)).lastBid
      = some ci.1 := (Prod.mk.injEq _ _ _ _ ▸ hlast).1
  have hidx : (auction.foldl solverStep (initSolverState dealer)).lastBidderIdx
      = (ci.2.val : Int) := (Prod.mk.injEq _ _ _ _ ▸ hlast).2
  rw [get_contract, if_neg hne]
  simp only [hlb, hidx, pyGet_playerAt, hb, hs0]
  rcases partnershipOf_cases s0 with hp | hp <;> rw [hp]
  · show fbGet _ "NS" _ = _
    rw [fbGet, if_pos rfl, foldl_solverStep_fbNS]
    rfl
  · show fbGet _ "EW" _ = _
    rw [fbGet]
    rw [if_neg (by decide : ¬("EW" : String) = "NS"), foldl_solverStep_fbEW]
    rfl

/-- Witness for C3 at the claim's example: dealer South, auction
    `[p, 1s, p, 2s, p, p, p]` — East makes the final bid `2s`, but the
    declarer is West, the first East-West seat to bid spades, and the
    full result is `("2S", "W", "")`. -/
theorem get_contract_declarer_first_mention_witness :
    (get_contract "S" ["p", "1s", "p", "2s", "p", "p", "p"]).2.1 = some "W" ∧
      get_contract "S" ["p", "1s", "p", "2s", "p", "p", "p"]
        = ("2S", some "W", "") :=
  ⟨(get_contract_declarer_first_mention "S"
      ["p", "1s", "p", "2s", "p", "p", "p"] "2s" "E" (by decide)).trans
        (by decide),
   by decide⟩

/-! ## Claim C1 -/

/-- Removing a list of cards from a duplicate-free deck erases exactly
    the (normalized) members. -/
theorem removeCards_eq (cards : List String) :
    ∀ d : List String, d.Nodup →
      removeCards d cards =
        d.filter (fun x => decide (x ∉ cards.map normCard)) := by
  induction cards with
  | nil =>
    intro d _
    simp [removeCards]
  | cons c cs ih =>
    intro d hd
    have h1 : removeCards d (c :: cs) = removeCards (d.erase (normCard c)) cs := by
      rw [removeCards, removeCards, List.foldl_cons]
    rw [h1, ih (d.erase (normCard c)) (hd.erase _),
      hd.erase_eq_filter (normCard c), List.filter_filter]
    apply List.filter_congr
    intro x _
    by_cases hx : x = normCard c
    · simp [hx]
    · simp [hx]

/-- The removal scan over any seat list computes the filter of the deck
    by non-membership in the removed cards. -/
theorem foldl_removeCards (hands : Hands) (missing : Seat) (u : Suit)
    (ss : List Seat) :
    ∀ d : List String, d.Nodup →
      ss.foldl
        (fun d s =>
          if s = missing then d
          else
            match hands.get s with
            | some h => removeCards d (h.get u)
            | none => d)
        d
      = d.filter (fun x => decide (x ∉ removedCards hands missing u ss)) := by
  induction ss with
  | nil =>
    intro d _
    simp [removedCards]
  | cons s ss ih =>
    intro d hd
    rw [List.foldl_cons]
    by_cases hs : s = missing
    · rw [if_pos hs, ih d hd]
      simp [removedCards, hs]
    · rw [if_neg hs]
      cases hget : hands.get s with
      | none =>
        rw [ih d hd]
        simp [removedCards, hs, suitCardsOf, hget]
      | some h =>
        dsimp only
        rw [removeCards_eq (h.get u) d hd, ih _ (hd.filter _),
          List.filter_filter]
        apply List.filter_congr
        intro x _
        simp only [removedCards, List.map_cons, List.flatten_cons, if_neg hs,
          suitCardsOf, hget, Option.map_some', Option.getD_some,
          List.mem_append, decide_not]
        by_cases hx : x ∈ (h.get u).map normCard
        · simp [hx]
        · by_cases hx2 : x ∈ removedCards hands missing u ss
          · simp [removedCards, hx, hx2]
          · simp [removedCards, hx, hx2]

theorem ranksList_nodup : ranksList.Nodup := by decide

/-- The remaining deck of a suit is the rank-ordered complement of the
    removed cards. -/
theorem remainingDeck_eq (hands : Hands) (missing : Seat) (u : Suit) :
    remainingDeck hands missing u =
      ranksList.filter
        (fun x => decide (x ∉ removedCards hands missing u seatOrder)) :=
  foldl_removeCards hands missing u seatOrder ranksList ranksList_nodup

/-- Valid cards are unchanged by the `'10' → 'T'` normalization. -/
theorem normCard_map_id (cards : List String)
    (h : ∀ c ∈ cards, c ∈ ranksList) : cards.map normCard = cards := by
  have : ∀ c ∈ cards, normCard c = c := by
    intro c hc
    have : c ≠ "10" := by
      intro hx
      have h10 : ("10" : String) ∈ ranksList := hx ▸ h c hc
      exact absurd h10 (by decide)
    simp [normCard, this]
  calc cards.map normCard = cards.map id := List.map_congr_left this
    _ = cards := List.map_id cards

/-- Under the claim's validity hypotheses, the removal scan erases
    exactly the cards held across the seats (the missing seat holds
    none). -/
theorem removedCards_eq_allSuitCards (hands : Hands) (m : Seat) (u : Suit)
    (hmiss : hands.get m = none)
    (hvalid : ∀ s, ∀ c ∈ suitCardsOf hands s u, c ∈ ranksList) :
    removedCards hands m u seatOrder = allSuitCards hands u := by
  rw [removedCards, allSuitCards]
  congr 1
  apply List.map_congr_left
  intro s _
  by_cases hs : s = m
  · rw [if_pos hs, hs]
    simp [suitCardsOf, hmiss]
  · rw [if_neg hs, normCard_map_id _ (hvalid s)]

/-- Membership form of the restored suit list. -/
theorem sortRanks_remainingDeck (hands : Hands) (m : Seat) (u : Suit)
    (hmiss : hands.get m = none)
    (hvalid : ∀ s, ∀ c ∈ suitCardsOf hands s u, c ∈ ranksList) :
    sortRanks (remainingDeck hands m u) =
      ranksList.filter (fun x => decide (x ∉ allSuitCards hands u)) := by
  rw [sortRanks, remainingDeck_eq, removedCards_eq_allSuitCards hands m u hmiss hvalid]
  apply List.filter_congr
  intro x hx
  simp only [List.mem_filter, decide_eq_true_eq, decide_eq_decide]
  constructor
  · rintro ⟨-, hmem⟩
    exact hmem
  · intro hmem
    exact ⟨hx, hmem⟩

/-- Counting a rank in a duplicate-free valid card set plus its ordered
    complement gives exactly its count in the full rank alphabet. -/
theorem count_complement (P : List String) (hnd : P.Nodup)
    (hsub : ∀ c ∈ P, c ∈ ranksList) (a : String) :
    List.count a P +
        List.count a (ranksList.filter (fun x => decide (x ∉ P))) =
      List.count a ranksList := by
  by_cases ha : a ∈ ranksList
  · by_cases hp : a ∈ P
    · have h1 : List.count a P = 1 := List.count_eq_one_of_mem hnd hp
      have h2 : List.count a (ranksList.filter (fun x => decide (x ∉ P))) = 0 := by
        apply List.count_eq_zero_of_not_mem
        intro hmem
        rw [List.mem_filter] at hmem
        exact absurd hp (by simpa using hmem.2)
      have h3 : List.count a ranksList = 1 :=
        List.count_eq_one_of_mem ranksList_nodup ha
      omega
    · have h1 : List.count a P = 0 := List.count_eq_zero_of_not_mem hp
      have h2 : List.count a (ranksList.filter (fun x => decide (x ∉ P))) = 1 := by
        apply List.count_eq_one_of_mem (ranksList_nodup.filter _)
        rw [List.mem_filter]
        exact ⟨ha, by simpa using hp⟩
      have h3 : List.count a ranksList = 1 :=
        List.count_eq_one_of_mem ranksList_nodup ha
      omega
  · have h1 : List.count a P = 0 :=
      List.count_eq_zero_of_not_mem (fun hx => ha (hsub a hx))
    have h2 : List.count a (ranksList.filter (fun x => decide (x ∉ P))) = 0 :=
      List.count_eq_zero_of_not_mem
        (fun hx => ha (List.mem_filter.mp hx).1)
    have h3 : List.count a ranksList = 0 := List.count_eq_zero_of_not_mem ha
    omega

/-- Claim C1: with exactly one seat absent and the three present seats
    holding 39 distinct valid ranks (duplicate-free within each suit
    across the hands), `_fill_missing_hand` fills the absent seat so that
    every seat is present, every suit across the four seats is a
    permutation of the 13-rank alphabet (so the union over all seats and
    suits is the 52-card deck, each card exactly once, and every suit
    list is duplicate-free), and the reconstructed suit lists are sorted
    high-to-low in the order `AKQJT98765432`. -/
theorem fill_missing_hand_card_conservation (hands : Hands) (m : Seat)
    (hmiss : hands.get m = none)
    (hpres : ∀ s, s ≠ m → (hands.get s).isSome)
    (hvalid : ∀ s u, ∀ c ∈ suitCardsOf hands s u, c ∈ ranksList)
    (hnodup : ∀ u, (allSuitCards hands u).Nodup)
    (_hcount : totalCards hands = 39) :
    (∀ s, ((fill_missing_hand hands).get s).isSome) ∧
      ((fill_missing_hand hands).get m = some (restoredHand hands m)) ∧
      (∀ u, (allSuitCards (fill_missing_hand hands) u).Perm ranksList) ∧
      (∀ s u, (suitCardsOf (fill_missing_hand hands) s u).Nodup) ∧
      (∀ u, ((restoredHand hands m).get u).Pairwise
          (fun a b => rankIdx a < rankIdx b)) := by
  have hfm := firstMissingSeat_of_unique hands m hmiss hpres
  have hfill : fill_missing_hand hands
      = hands.set m (some (restoredHand hands m)) := by
    rw [fill_missing_hand, hfm]
  have hrh : ∀ u, (restoredHand hands m).get u
      = sortRanks (remainingDeck hands m u) := by
    intro u
    cases u <;> rfl
  have hsub : ∀ u, ∀ c ∈ allSuitCards hands u, c ∈ ranksList := by
    intro u c hc
    rw [allSuitCards, List.mem_flatten] at hc
    obtain ⟨l, hl, hcl⟩ := hc
    rw [List.mem_map] at hl
    obtain ⟨s, -, rfl⟩ := hl
    exact hvalid s u c hcl
  have hperm : ∀ u, (allSuitCards (fill_missing_hand hands) u).Perm ranksList := by
    intro u
    rw [List.perm_iff_count]
    intro a
    have hcnt : List.count a (allSuitCards (fill_missing_hand hands) u) =
        List.count a ((restoredHand hands m).get u) +
          List.count a (allSuitCards hands u) := by
      rw [hfill]
      cases m <;>
        · simp only [Hands.get] at hmiss
          simp [allSuitCards, seatOrder, suitCardsOf, Hands.set, Hands.get,
            List.count_append, hmiss]
          try omega
    rw [hcnt, hrh u,
      sortRanks_remainingDeck hands m u hmiss (fun s => hvalid s u),
      Nat.add_comm]
    exact count_complement (allSuitCards hands u) (hnodup u) (hsub u) a
  refine ⟨?_, ?_, hperm, ?_, ?_⟩
  · intro s
    by_cases hs : s = m
    · rw [hs, hfill, Hands.get_set_self]
      rfl
    · rw [hfill, Hands.get_set_ne hands m s _ hs]
      exact hpres s hs
  · rw [hfill, Hands.get_set_self]
  · intro s u
    have hnodall : (allSuitCards (fill_missing_hand hands) u).Nodup :=
      ((hperm u).nodup_iff).mpr (by decide)
    have hmem : suitCardsOf (fill_missing_hand hands) s u ∈
        seatOrder.map (fun s => suitCardsOf (fill_missing_hand hands) s u) :=
      List.mem_map.mpr ⟨s, by cases s <;> decide, rfl⟩
    exact List.Nodup.sublist (List.sublist_flatten_of_mem hmem) hnodall
  · intro u
    rw [hrh u, sortRanks]
    exact List.Pairwise.sublist (List.filter_sublist _) (by decide)

/-- Witness for C1: the three concrete 13-card hands of `handsC1` with
    East absent; East is reconstructed and the deck is conserved. -/
theorem fill_missing_hand_card_conservation_witness :
    (∀ s, ((fill_missing_hand handsC1).get s).isSome) ∧
      ((fill_missing_hand handsC1).get Seat.E
        = some (restoredHand handsC1 Seat.E)) ∧
      (∀ u, (allSuitCards (fill_missing_hand handsC1) u).Perm ranksList) ∧
      (∀ s u, (suitCardsOf (fill_missing_hand handsC1) s u).Nodup) ∧
      (∀ u, ((restoredHand handsC1 Seat.E).get u).Pairwise
          (fun a b => rankIdx a < rankIdx b)) :=
  fill_missing_hand_card_conservation handsC1 Seat.E rfl (by decide)
    (by decide) (by decide) (by decide)
